import Mathlib

/-!
Shallow embedding of `KVRecordStoreCapped`
(`src/mongo/db/storage/kv/dictionary/kv_record_store_capped.cpp`).

Record identifiers are modelled as `Int` (totally ordered tokens, matching the
comparable `RecordId`).  A record is a pair of its identifier and its payload
length in bytes; payloads themselves are byte lists (`List Nat`).  External
collaborators that the source file only calls — `oploghack::extractKey`,
`oploghack::keyForOptime`, the generic `KVRecordStore::insertRecord` /
`_insertRecord`, the capped-delete callback, and the outcome of the
non-blocking `boost::try_to_lock` — are kept abstract as fields of `Env`.
Collaborator behaviour that the source file relies on but whose code is not in
scope (the underlying delete, the visibility tracker's state and the iterator
restriction installed by `getIterator`) is modelled from the specification and
marked as such on each definition.
-/

/-- Error taxonomy of the specification.  The source returns
`ErrorCodes::BadValue` with distinct messages for the first two; the others
are carried through from collaborators. -/
inductive Err where
  | payloadTooLarge
  | malformedKey
  | underlyingStoreError (code : Nat)
  | aboutToDeleteRejected (code : Nat)
deriving DecidableEq, Repr

/-- State of one `KVRecordStoreCapped` instance: the underlying ordered
record store's contents (identifier, payload length), the visibility
tracker's pending set and `lowestInvisible` boundary (`none` models
`RecordId::max`, i.e. no restriction), and the configuration fixed at
construction.  `hasTracker` models the `_idTracker` null check in
`oplogStartHack`. -/
structure Store where
  records : List (Int × Nat)
  uncommitted : List Int
  lowestInvisible : Option Int
  hasTracker : Bool
  isOplog : Bool
  cappedMaxSize : Int
  cappedMaxDocs : Int
deriving DecidableEq, Repr

/-- Collection options relevant to the constructor: `cappedSize` and
`cappedMaxDocs`, both `0` when unset (C++ truthiness test). -/
structure CollectionOptions where
  cappedSize : Int
  cappedMaxDocs : Int
deriving DecidableEq, Repr

/-- External collaborators of `KVRecordStoreCapped`, abstract.
`tryLockSucceeds` is the outcome of the non-blocking
`boost::mutex::scoped_lock(_cappedDeleteMutex, boost::try_to_lock)`
acquisition attempt for the current call. -/
structure Env where
  extractKey : List Nat → Except Err Int
  keyForOptime : Nat → Except Err Int
  genericInsert : Store → List Nat → Except Err (Int × Store)
  writeAt : Store → Int → List Nat → Except Err Store
  cappedDeleteCallback : Option (Int → Except Err Unit)
  tryLockSucceeds : Bool

/-- Constructor `KVRecordStoreCapped::KVRecordStoreCapped`:
`_cappedMaxSize = options.cappedSize ? options.cappedSize : 4096`,
`_cappedMaxDocs = options.cappedMaxDocs ? options.cappedMaxDocs : -1`,
`_idTracker` always allocated (oplog or capped variant). -/
def mkKVRecordStoreCapped (options : CollectionOptions) (isOplog : Bool) : Store :=
  { records := []
    uncommitted := []
    lowestInvisible := none
    hasTracker := true
    isOplog := isOplog
    cappedMaxSize := if options.cappedSize ≠ 0 then options.cappedSize else 4096
    cappedMaxDocs := if options.cappedMaxDocs ≠ 0 then options.cappedMaxDocs else -1 }

/-- Total byte size of the store, as reported by `dataSize(txn)`. -/
def dataSize (s : Store) : Int :=
  (((s.records.map Prod.snd).sum : Nat) : Int)

/-- Document count of the store, as reported by `numRecords(txn)`. -/
def numRecords (s : Store) : Int :=
  (s.records.length : Int)

/-- `KVRecordStoreCapped::needsDelete`: too many bytes, or (`maxDocs` set and
too many documents). -/
def needsDelete (s : Store) : Bool :=
  if dataSize s > s.cappedMaxSize then
    true
  else if s.cappedMaxDocs ≠ -1 ∧ numRecords s > s.cappedMaxDocs then
    true
  else
    false

/-- Comparison `id < lowestInvisible`, where `none` models an unrestricted
boundary (`RecordId::max`). -/
def ltLowest (lowest : Option Int) (id : Int) : Bool :=
  match lowest with
  | none => true
  | some v => decide (id < v)

/-- Modelled from the spec: the visibility tracker hides an identifier from
forward scans when it is in the uncommitted set or at/above the
`lowestInvisible` boundary ("smallest identifier that must be hidden from
forward scans"). -/
def hiddenId (s : Store) (id : Int) : Bool :=
  s.uncommitted.contains id || ! ltLowest s.lowestInvisible id

/-- Modelled from the spec: `VisibleIdTracker::addUncommittedId` inserts the
identifier into the pending set and keeps the invariant
`lowestInvisible ≤ min(uncommitted)`. -/
def addUncommittedId (s : Store) (id : Int) : Store :=
  { s with
    uncommitted := id :: s.uncommitted
    lowestInvisible := some (match s.lowestInvisible with
      | none => id
      | some v => min v id) }

/-- Identifiers present in the store, in ascending order — the key order in
which the underlying ordered dictionary iterates. -/
def sortedIds (s : Store) : List Int :=
  (s.records.map Prod.fst).insertionSort (· ≤ ·)

/-- Modelled from the spec: the records yielded by `getIterator(txn)` — a
full forward scan, with the visibility restriction installed by
`_idTracker->setIteratorRestriction` (forward iterators skip hidden
identifiers). -/
def forwardScan (s : Store) : List Int :=
  (sortedIds s).filter (fun id => ! hiddenId s id)

/-- Modelled from the spec: the records yielded by
`getIterator(txn, start, FORWARD)` — identifiers at or after `start`, in
ascending order, with the visibility restriction installed. -/
def forwardScanFrom (s : Store) (start : Int) : List Int :=
  ((sortedIds s).filter (fun id => decide (start ≤ id))).filter
    (fun id => ! hiddenId s id)

/-- Modelled from the spec: the records yielded by
`getIterator(txn, start, BACKWARD)` — identifiers at or before `start`, in
descending order; backward iterators carry no visibility restriction. -/
def backScan (s : Store) (start : Int) : List Int :=
  ((sortedIds s).filter (fun id => decide (id ≤ start))).reverse

/-- Modelled from the spec: `KVRecordStore::deleteRecord` removes the record
with the given identifier from the underlying store (sizes/counts follow). -/
def underlyingDelete (s : Store) (id : Int) : Store :=
  { s with records := s.records.filter (fun r => ! decide (r.1 = id)) }

/-- `KVRecordStoreCapped::deleteRecord`: when a capped-delete callback is
registered, notify it first; `uassertStatusOK` on its failure aborts the
delete before reaching the underlying store (modelled as an error result);
otherwise delegate to `KVRecordStore::deleteRecord`. -/
def deleteRecord (env : Env) (s : Store) (id : Int) : Store × Option Err :=
  match env.cappedDeleteCallback with
  | some cb =>
    match cb id with
    | .error e => (s, some e)
    | .ok _ => (underlyingDelete s id, none)
  | none => (underlyingDelete s id, none)

/-- Loop body of `KVRecordStoreCapped::deleteAsNeeded`: while `needsDelete`
and the iterator has more, take the next (oldest remaining) identifier and
delete it through `deleteRecord`; a callback failure propagates out of the
loop. -/
def evictLoop (env : Env) : Store → List Int → Store × Option Err
  | s, [] => (s, none)
  | s, id :: rest =>
    if needsDelete s then
      match deleteRecord env s id with
      | (s1, none) => evictLoop env s1 rest
      | (s1, some e) => (s1, some e)
    else
      (s, none)

/-- `KVRecordStoreCapped::deleteAsNeeded`: nothing to do when
`needsDelete` is false; return immediately when the non-blocking try-lock
fails; otherwise run the eviction loop over a fresh forward scan. -/
def deleteAsNeeded (env : Env) (s : Store) : Store × Option Err :=
  if ! needsDelete s then
    (s, none)
  else if ! env.tryLockSucceeds then
    (s, none)
  else
    evictLoop env s (forwardScan s)

/-- Write phase of `KVRecordStoreCapped::insertRecord`: in oplog mode derive
the identifier with `oploghack::extractKey` and write directly at it with
`_insertRecord`; otherwise delegate assignment and write to
`KVRecordStore::insertRecord`, propagating its error unchanged. -/
def writePhase (env : Env) (s : Store) (data : List Nat) :
    Except Err (Int × Store) :=
  if s.isOplog then
    match env.extractKey data with
    | .error e => .error e
    | .ok id =>
      match env.writeAt s id data with
      | .error e => .error e
      | .ok s1 => .ok (id, s1)
  else
    env.genericInsert s data

/-- `KVRecordStoreCapped::insertRecord(txn, data, len, enforceQuota)`:
reject payloads larger than `_cappedMaxSize`; run the write phase; register
the new identifier as uncommitted; then `deleteAsNeeded` (whose
`uassertStatusOK` failure propagates, modelled as an error result carrying
the state reached). -/
def insertRecord (env : Env) (s : Store) (data : List Nat) :
    Store × Except Err Int :=
  if (data.length : Int) > s.cappedMaxSize then
    (s, .error .payloadTooLarge)
  else
    match writePhase env s data with
    | .error e => (s, .error e)
    | .ok (id, s1) =>
      match deleteAsNeeded env (addUncommittedId s1 id) with
      | (s3, none) => (s3, .ok id)
      | (s3, some e) => (s3, .error e)

/-- Document writer collaborator: a document that can report its size and
serialize itself into a buffer of that size. -/
structure DocWriter where
  bytes : List Nat
deriving DecidableEq, Repr

/-- Size reported by `doc->documentSize()`. -/
def DocWriter.documentSize (d : DocWriter) : Nat :=
  d.bytes.length

/-- Buffer produced by `doc->writeDocument(value.mutableData())` into a
`Slice` of `documentSize()` bytes. -/
def DocWriter.writeDocument (d : DocWriter) : List Nat :=
  d.bytes

/-- `KVRecordStoreCapped::insertRecord(txn, doc, enforceQuota)`: serialize
the document into a buffer of `documentSize()` bytes and call the
`(data, len)` overload on it. -/
def insertRecordDoc (env : Env) (s : Store) (doc : DocWriter) :
    Store × Except Err Int :=
  insertRecord env s doc.writeDocument

/-- Loop of `KVRecordStoreCapped::temp_cappedTruncateAfter`: walk the
forward scan; skip `end` itself when not inclusive; delete everything else
through `deleteRecord`, each deletion in its own (immediately committed)
unit of work; a failure halts the loop. -/
def truncLoop (env : Env) (endId : Int) (inclusive : Bool) :
    Store → List Int → Store × Option Err
  | s, [] => (s, none)
  | s, loc :: rest =>
    if ! inclusive && loc == endId then
      truncLoop env endId inclusive s rest
    else
      match deleteRecord env s loc with
      | (s1, none) => truncLoop env endId inclusive s1 rest
      | (s1, some e) => (s1, some e)

/-- `KVRecordStoreCapped::temp_cappedTruncateAfter(txn, end, inclusive)`:
iterate forward from `end` and delete. -/
def temp_cappedTruncateAfter (env : Env) (s : Store) (endId : Int)
    (inclusive : Bool) : Store × Option Err :=
  truncLoop env endId inclusive s (forwardScanFrom s endId)

/-- `KVRecordStoreCapped::oplogStartHack(txn, startingPosition)`: invalid
sentinel (`none`) without a tracker; otherwise walk a backward iterator from
`startingPosition` and return the first identifier that is
`≤ startingPosition` and `< lowestInvisible`, or the invalid sentinel. -/
def oplogStartHack (s : Store) (startingPosition : Int) : Option Int :=
  if ! s.hasTracker then
    none
  else
    (backScan s startingPosition).find?
      (fun id => decide (id ≤ startingPosition) && ltLowest s.lowestInvisible id)

/-- `KVRecordStoreCapped::oplogDiskLocRegister(txn, opTime)`: derive the
identifier with `oploghack::keyForOptime`, propagate its failure, else
register the identifier as uncommitted. -/
def oplogDiskLocRegister (env : Env) (s : Store) (opTime : Nat) :
    Store × Except Err Unit :=
  match env.keyForOptime opTime with
  | .error e => (s, .error e)
  | .ok id => (addUncommittedId s id, .ok ())

/-- Identifiers deleted one after the other through the underlying store. -/
def deleteIds : Store → List Int → Store
  | s, [] => s
  | s, id :: rest => deleteIds (underlyingDelete s id) rest

/-- Concrete collaborator environment used by witnesses: key extraction
fails on the empty payload, the generic store appends at identifier 9, the
optime key is the token itself (failing on 0), no delete callback, lock
available.
-/
def envW : Env :=
  { extractKey := fun data =>
      if data.length = 0 then .error .malformedKey else .ok 7
    keyForOptime := fun t =>
      if t = 0 then .error .malformedKey else .ok (t : Int)
    genericInsert := fun s data =>
      .ok (9, { s with records := s.records ++ [(9, data.length)] })
    writeAt := fun s id data =>
      .ok { s with records := s.records ++ [(id, data.length)] }
    cappedDeleteCallback := none
    tryLockSucceeds := true }

/-- Environment identical to `envW` except that the capped-delete callback
rejects every deletion. -/
def envR : Env :=
  { extractKey := fun data =>
      if data.length = 0 then .error .malformedKey else .ok 7
    keyForOptime := fun t =>
      if t = 0 then .error .malformedKey else .ok (t : Int)
    genericInsert := fun s data =>
      .ok (9, { s with records := s.records ++ [(9, data.length)] })
    writeAt := fun s id data =>
      .ok { s with records := s.records ++ [(id, data.length)] }
    cappedDeleteCallback := some (fun _ => .error (.aboutToDeleteRejected 0))
    tryLockSucceeds := true }

/-- Concrete one-record store used by witnesses (`cappedMaxSize = 1`). -/
def storeA : Store :=
  { records := [(1, 5)]
    uncommitted := []
    lowestInvisible := none
    hasTracker := true
    isOplog := false
    cappedMaxSize := 1
    cappedMaxDocs := -1 }

/-- Concrete store with a committed record at 1 and an uncommitted record at
2 (`lowestInvisible = 2`), used for the truncation counterexample. -/
def cexStore : Store :=
  { records := [(1, 1), (2, 1)]
    uncommitted := [2]
    lowestInvisible := some 2
    hasTracker := true
    isOplog := false
    cappedMaxSize := 4096
    cappedMaxDocs := -1 }

/-- Oplog-mode variant of `storeA`, with room for small payloads. -/
def storeO : Store :=
  { records := []
    uncommitted := []
    lowestInvisible := none
    hasTracker := true
    isOplog := true
    cappedMaxSize := 10
    cappedMaxDocs := -1 }

/-- Concrete store over which a small insert overflows `cappedMaxSize = 5`,
used by the eviction-failure witness. -/
def storeB : Store :=
  { records := [(1, 5)]
    uncommitted := []
    lowestInvisible := none
    hasTracker := true
    isOplog := false
    cappedMaxSize := 5
    cappedMaxDocs := -1 }

/-- State of `storeB` right after `envR.genericInsert` wrote payload
`[3, 3]` at identifier 9. -/
def storeB1 : Store :=
  { records := [(1, 5), (9, 2)]
    uncommitted := []
    lowestInvisible := none
    hasTracker := true
    isOplog := false
    cappedMaxSize := 5
    cappedMaxDocs := -1 }

/-- Concrete store with records 1 and 3, record 3 pending
(`lowestInvisible = 3`), used by the lower-bound witness. -/
def storeC : Store :=
  { records := [(1, 0), (3, 0)]
    uncommitted := [3]
    lowestInvisible := some 3
    hasTracker := true
    isOplog := true
    cappedMaxSize := 4096
    cappedMaxDocs := -1 }

/-- Lemma: a universally rejecting capped-delete callback makes the eviction
loop leave the store untouched. -/
theorem evictLoop_reject (env : Env) (cb : Int → Except Err Unit) (e : Err)
    (hcb : env.cappedDeleteCallback = some cb) (hall : ∀ x, cb x = .error e) :
    ∀ (l : List Int) (s : Store), (evictLoop env s l).1 = s := by
  intro l
  induction l with
  | nil => intro s; rfl
  | cons id rest ih =>
    intro s
    unfold evictLoop
    by_cases h : needsDelete s = true
    · have hd : deleteRecord env s id = (s, some e) := by
        simp [deleteRecord, hcb, hall id]
      simp [h, hd]
    · simp [h]

/-- Lemma: a universally rejecting capped-delete callback makes the
truncation loop leave the store untouched. -/
theorem truncLoop_reject (env : Env) (cb : Int → Except Err Unit) (e : Err)
    (hcb : env.cappedDeleteCallback = some cb) (hall : ∀ x, cb x = .error e)
    (endId : Int) (incl : Bool) :
    ∀ (l : List Int) (s : Store), (truncLoop env endId incl s l).1 = s := by
  intro l
  induction l with
  | nil => intro s; rfl
  | cons loc rest ih =>
    intro s
    unfold truncLoop
    by_cases h : (! incl && loc == endId) = true
    · simp [h, ih s]
    · have hd : deleteRecord env s loc = (s, some e) := by
        simp [deleteRecord, hcb, hall loc]
      simp [h, hd]

/-- C2: a payload strictly larger than `maxBytes` makes `insertRecord` fail
with the payload-too-large error, and the store's byte size, document count
and tracker state are unchanged — nothing is written or registered. -/
theorem insertRecord_payloadTooLarge (env : Env) (s : Store) (data : List Nat)
    (h : (data.length : Int) > s.cappedMaxSize) :
    insertRecord env s data = (s, .error .payloadTooLarge)
    ∧ dataSize (insertRecord env s data).1 = dataSize s
    ∧ numRecords (insertRecord env s data).1 = numRecords s
    ∧ (insertRecord env s data).1.uncommitted = s.uncommitted
    ∧ (insertRecord env s data).1.lowestInvisible = s.lowestInvisible := by
  have he : insertRecord env s data = (s, .error .payloadTooLarge) := by
    unfold insertRecord
    rw [if_pos h]
  exact ⟨he, by rw [he], by rw [he], by rw [he], by rw [he]⟩

/-- Witness for C2 at a concrete oversized payload. -/
theorem insertRecord_payloadTooLarge_witness :
    insertRecord envW storeA [0, 0] = (storeA, .error .payloadTooLarge) :=
  (insertRecord_payloadTooLarge envW storeA [0, 0] (by decide)).1

/-- C4: `needsDelete` is true exactly when the byte size exceeds
`cappedMaxSize` or a document cap is set (`≠ -1`) and the document count
exceeds it; construction defaults `cappedMaxSize` to 4096 and `cappedMaxDocs`
to the no-limit sentinel when the options are unset (zero); with no document
cap only the byte size matters. -/
theorem needsDelete_iff (s : Store) (options : CollectionOptions) (o : Bool) :
    (needsDelete s = true ↔
      dataSize s > s.cappedMaxSize ∨
        (s.cappedMaxDocs ≠ -1 ∧ numRecords s > s.cappedMaxDocs))
    ∧ (mkKVRecordStoreCapped options o).cappedMaxSize
        = (if options.cappedSize = 0 then 4096 else options.cappedSize)
    ∧ (mkKVRecordStoreCapped options o).cappedMaxDocs
        = (if options.cappedMaxDocs = 0 then -1 else options.cappedMaxDocs)
    ∧ (s.cappedMaxDocs = -1 →
        (needsDelete s = true ↔ dataSize s > s.cappedMaxSize)) := by
  refine ⟨?_, ?_, ?_, ?_⟩
  · unfold needsDelete
    split_ifs with h1 h2
    · simp [h1]
    · simp [h1, h2]
    · simp [h1, h2]
  · by_cases h : options.cappedSize = 0 <;> simp [mkKVRecordStoreCapped, h]
  · by_cases h : options.cappedMaxDocs = 0 <;> simp [mkKVRecordStoreCapped, h]
  · intro h
    unfold needsDelete
    rw [h]
    split_ifs with h1 h2
    · simp [h1]
    · exact absurd rfl h2.1
    · simp [h1]

/-- Witness for C4: with the document cap unset, `needsDelete` reduces to
the byte-size comparison on a concrete store. -/
theorem needsDelete_iff_witness :
    needsDelete storeA = true ↔ dataSize storeA > storeA.cappedMaxSize :=
  (needsDelete_iff storeA ⟨0, 0⟩ false).2.2.2 rfl

/-- C8: every deletion first notifies the registered about-to-delete
callback — a rejection aborts the delete before the underlying store is
touched and propagates; acceptance or absence of a callback proceeds to the
underlying delete; and with a universally rejecting callback neither the
eviction pass nor truncation ever removes a record. -/
theorem deleteRecord_spec (env : Env) (s : Store) (id : Int) :
    (∀ cb, env.cappedDeleteCallback = some cb →
      (∀ e, cb id = .error e → deleteRecord env s id = (s, some e))
      ∧ (cb id = .ok () → deleteRecord env s id = (underlyingDelete s id, none)))
    ∧ (env.cappedDeleteCallback = none →
        deleteRecord env s id = (underlyingDelete s id, none))
    ∧ (∀ cb e, env.cappedDeleteCallback = some cb → (∀ x, cb x = .error e) →
        (deleteAsNeeded env s).1.records = s.records
        ∧ ∀ endId incl,
            (temp_cappedTruncateAfter env s endId incl).1.records = s.records) := by
  refine ⟨?_, ?_, ?_⟩
  · intro cb hcb
    constructor
    · intro e he
      simp [deleteRecord, hcb, he]
    · intro hok
      simp [deleteRecord, hcb, hok]
  · intro hnone
    simp [deleteRecord, hnone]
  · intro cb e hcb hall
    constructor
    · unfold deleteAsNeeded
      split_ifs with h1 h2
      · rfl
      · rfl
      · rw [evictLoop_reject env cb e hcb hall]
    · intro endId incl
      unfold temp_cappedTruncateAfter
      rw [truncLoop_reject env cb e hcb hall]

/-- Witness for C8: the rejecting callback aborts a concrete delete with its
error and without touching the store. -/
theorem deleteRecord_spec_witness :
    deleteRecord envR storeA 1 = (storeA, some (.aboutToDeleteRejected 0)) :=
  ((deleteRecord_spec envR storeA 1).1
    (fun _ => .error (.aboutToDeleteRejected 0)) rfl).1
    (.aboutToDeleteRejected 0) rfl

/-- C9: `oplogDiskLocRegister` propagates a key-derivation failure with the
store and tracker unchanged; on success it registers the derived identifier
as uncommitted and inserts no payload. -/
theorem oplogDiskLocRegister_spec (env : Env) (s : Store) (t : Nat) :
    (∀ e, env.keyForOptime t = .error e →
        oplogDiskLocRegister env s t = (s, .error e))
    ∧ (∀ id, env.keyForOptime t = .ok id →
        oplogDiskLocRegister env s t = (addUncommittedId s id, .ok ())
        ∧ id ∈ (oplogDiskLocRegister env s t).1.uncommitted
        ∧ (oplogDiskLocRegister env s t).1.records = s.records) := by
  constructor
  · intro e he
    unfold oplogDiskLocRegister
    rw [he]
  · intro id hid
    unfold oplogDiskLocRegister
    rw [hid]
    exact ⟨rfl, by simp [addUncommittedId], rfl⟩

/-- Witness for C9: key derivation fails on token 0 and the call returns the
derivation error with the store unchanged. -/
theorem oplogDiskLocRegister_spec_witness :
    oplogDiskLocRegister envW storeA 0 = (storeA, .error .malformedKey) :=
  (oplogDiskLocRegister_spec envW storeA 0).1 .malformedKey rfl

/-- C10: the document-writer overload of `insertRecord` is exactly the
`(data, len)` overload applied to the buffer produced by serializing the
document, whose length is `documentSize()` — so both entry points share the
capacity check, key derivation, registration and eviction behaviour. -/
theorem insertRecordDoc_refines (env : Env) (s : Store) (d : DocWriter) :
    insertRecordDoc env s d = insertRecord env s d.writeDocument
    ∧ d.writeDocument.length = d.documentSize :=
  ⟨rfl, rfl⟩

/-- Lemma: `deleteRecord` either leaves the store untouched (callback
rejection) or performs exactly the underlying delete. -/
theorem deleteRecord_state (env : Env) (s : Store) (id : Int) :
    (deleteRecord env s id).1 = s
    ∨ (deleteRecord env s id).1 = underlyingDelete s id := by
  cases hcb : env.cappedDeleteCallback with
  | none => exact Or.inr (by simp [deleteRecord, hcb])
  | some cb =>
    cases hc : cb id with
    | error e => exact Or.inl (by simp [deleteRecord, hcb, hc])
    | ok u => exact Or.inr (by simp [deleteRecord, hcb, hc])

/-- Lemma: the underlying delete does not touch the tracker. -/
theorem underlyingDelete_uncommitted (s : Store) (id : Int) :
    (underlyingDelete s id).uncommitted = s.uncommitted := rfl

/-- Lemma: the eviction loop never mutates the tracker's pending set. -/
theorem evictLoop_uncommitted (env : Env) :
    ∀ (l : List Int) (s : Store),
      ((evictLoop env s l).1).uncommitted = s.uncommitted := by
  intro l
  induction l with
  | nil => intro s; rfl
  | cons id rest ih =>
    intro s
    unfold evictLoop
    by_cases h : needsDelete s = true
    · rcases hd : deleteRecord env s id with ⟨s1, o⟩
      have hpres : s1.uncommitted = s.uncommitted := by
        rcases deleteRecord_state env s id with hc | hc <;> rw [hd] at hc <;>
          simp at hc <;> simp [hc, underlyingDelete]
      cases o with
      | none => simp [h, hd, ih s1, hpres]
      | some e => simp [h, hd, hpres]
    · simp [h]

/-- Lemma: `deleteAsNeeded` never mutates the tracker's pending set. -/
theorem deleteAsNeeded_uncommitted (env : Env) (s : Store) :
    ((deleteAsNeeded env s).1).uncommitted = s.uncommitted := by
  unfold deleteAsNeeded
  split_ifs with h1 h2
  · rfl
  · rfl
  · exact evictLoop_uncommitted env (forwardScan s) s

/-- Lemma: with no delete callback, the eviction loop deletes exactly a
prefix of its scan, re-checking `needsDelete` before each deletion; it stops
exactly when `needsDelete` turns false or the scan is exhausted. -/
theorem evictLoop_take (env : Env) (hcb : env.cappedDeleteCallback = none) :
    ∀ (l : List Int) (s : Store), ∃ k,
      k ≤ l.length
      ∧ evictLoop env s l = (deleteIds s (l.take k), none)
      ∧ (needsDelete (deleteIds s (l.take k)) = false ∨ k = l.length)
      ∧ ∀ j < k, needsDelete (deleteIds s (l.take j)) = true := by
  intro l
  induction l with
  | nil =>
    intro s
    exact ⟨0, by simp, rfl, Or.inr rfl,
      fun j hj => absurd hj (Nat.not_lt_zero j)⟩
  | cons id rest ih =>
    intro s
    by_cases h : needsDelete s = true
    · have hd : deleteRecord env s id = (underlyingDelete s id, none) := by
        simp [deleteRecord, hcb]
      obtain ⟨k, hk1, hk2, hk3, hk4⟩ := ih (underlyingDelete s id)
      refine ⟨k + 1, by simp only [List.length_cons]; omega, ?_, ?_, ?_⟩
      · unfold evictLoop
        simp [h, hd, deleteIds, List.take_succ_cons]
        exact hk2
      · rw [List.take_succ_cons]
        simp only [deleteIds, List.length_cons]
        rcases hk3 with hk3 | hk3
        · exact Or.inl hk3
        · exact Or.inr (by omega)
      · intro j hj
        cases j with
        | zero => simpa [deleteIds] using h
        | succ j =>
          rw [List.take_succ_cons]
          simp only [deleteIds]
          exact hk4 j (by omega)
    · refine ⟨0, by simp, ?_, Or.inl (by simpa [deleteIds] using h),
        fun j hj => absurd hj (Nat.not_lt_zero j)⟩
      unfold evictLoop
      simp [h, deleteIds]

/-- C1: under the capacity gate, oplog-mode inserts derive the identifier
from the payload and propagate an extraction failure with the store
unchanged; generic-mode inserts delegate to the underlying store and
propagate its error unchanged; after a successful write the identifier is
registered as uncommitted, the eviction pass runs on the registered state,
and (when that pass raises nothing) the new identifier is returned. -/
theorem insertRecord_correct (env : Env) (s : Store) (data : List Nat)
    (hlen : ¬ (data.length : Int) > s.cappedMaxSize) :
    (s.isOplog = true → ∀ e, env.extractKey data = .error e →
        insertRecord env s data = (s, .error e))
    ∧ (s.isOplog = true → ∀ id s1, env.extractKey data = .ok id →
        env.writeAt s id data = .ok s1 → writePhase env s data = .ok (id, s1))
    ∧ (s.isOplog = false → ∀ e, env.genericInsert s data = .error e →
        insertRecord env s data = (s, .error e))
    ∧ (∀ id s1, writePhase env s data = .ok (id, s1) →
        id ∈ (addUncommittedId s1 id).uncommitted
        ∧ ((deleteAsNeeded env (addUncommittedId s1 id)).2 = none →
            insertRecord env s data
              = ((deleteAsNeeded env (addUncommittedId s1 id)).1, .ok id))
        ∧ (∀ e, (deleteAsNeeded env (addUncommittedId s1 id)).2 = some e →
            insertRecord env s data
              = ((deleteAsNeeded env (addUncommittedId s1 id)).1, .error e))
        ∧ id ∈ (insertRecord env s data).1.uncommitted) := by
  refine ⟨?_, ?_, ?_, ?_⟩
  · intro hO e he
    have hwp : writePhase env s data = .error e := by
      simp [writePhase, hO, he]
    simp [insertRecord, hlen, hwp]
  · intro hO id s1 hk hw
    simp [writePhase, hO, hk, hw]
  · intro hO e he
    have hwp : writePhase env s data = .error e := by
      simp [writePhase, hO, he]
    simp [insertRecord, hlen, hwp]
  · intro id s1 hw
    have hmem : id ∈ (addUncommittedId s1 id).uncommitted := by
      simp [addUncommittedId]
    rcases hda : deleteAsNeeded env (addUncommittedId s1 id) with ⟨s3, o⟩
    have huncommitted : s3.uncommitted = (addUncommittedId s1 id).uncommitted := by
      have hu := deleteAsNeeded_uncommitted env (addUncommittedId s1 id)
      rw [hda] at hu
      simpa using hu
    cases o with
    | none =>
      have hins : insertRecord env s data = (s3, .ok id) := by
        simp [insertRecord, hlen, hw, hda]
      refine ⟨hmem, ?_, ?_, ?_⟩
      · intro _
        simp [hins]
      · intro e hcontra
        simp at hcontra
      · rw [hins]
        simpa [huncommitted] using hmem
    | some e0 =>
      have hins : insertRecord env s data = (s3, .error e0) := by
        simp [insertRecord, hlen, hw, hda]
      refine ⟨hmem, ?_, ?_, ?_⟩
      · intro hcontra
        simp at hcontra
      · intro e hsome
        have he : e0 = e := by
          simpa using hsome
        subst he
        simp [hins]
      · rw [hins]
        simpa [huncommitted] using hmem

/-- Witness for C1: in oplog mode, extraction failure on the empty payload
is returned unchanged and the store is untouched. -/
theorem insertRecord_correct_witness :
    insertRecord envW storeO [] = (storeO, .error .malformedKey) :=
  (insertRecord_correct envW storeO [] (by decide)).1 rfl .malformedKey rfl

/-- C3: `deleteAsNeeded` is a no-op when `needsDelete` is false; it returns
immediately, deleting nothing, when the non-blocking permit is unavailable;
otherwise it runs the eviction loop over the forward scan, whose identifiers
come in ascending (oldest-first) order, and (with no delete callback) that
loop deletes exactly a prefix of the scan, re-checking `needsDelete` before
each deletion and stopping exactly when it turns false or the scan is
exhausted. -/
theorem deleteAsNeeded_spec (env : Env) (s : Store) :
    (needsDelete s = false → deleteAsNeeded env s = (s, none))
    ∧ (env.tryLockSucceeds = false → deleteAsNeeded env s = (s, none))
    ∧ (needsDelete s = true → env.tryLockSucceeds = true →
        deleteAsNeeded env s = evictLoop env s (forwardScan s))
    ∧ List.Sorted (· ≤ ·) (forwardScan s)
    ∧ (env.cappedDeleteCallback = none → ∀ (l : List Int) (s0 : Store), ∃ k,
        k ≤ l.length
        ∧ evictLoop env s0 l = (deleteIds s0 (l.take k), none)
        ∧ (needsDelete (deleteIds s0 (l.take k)) = false ∨ k = l.length)
        ∧ ∀ j < k, needsDelete (deleteIds s0 (l.take j)) = true) := by
  refine ⟨?_, ?_, ?_, ?_, ?_⟩
  · intro h
    simp [deleteAsNeeded, h]
  · intro h
    unfold deleteAsNeeded
    by_cases h1 : needsDelete s = true <;> simp [h1, h]
  · intro h1 h2
    simp [deleteAsNeeded, h1, h2]
  · exact (List.sorted_insertionSort (· ≤ ·) _).filter _
  · exact fun hcb => evictLoop_take env hcb

/-- Witness for C3: on a fresh store nothing needs eviction and the call is
a no-op. -/
theorem deleteAsNeeded_spec_witness :
    deleteAsNeeded envW (mkKVRecordStoreCapped ⟨0, 0⟩ false)
      = (mkKVRecordStoreCapped ⟨0, 0⟩ false, none) :=
  (deleteAsNeeded_spec envW (mkKVRecordStoreCapped ⟨0, 0⟩ false)).1 rfl

/-- Lemma: an identifier in the pending set is hidden and therefore never
appears on a (restricted) forward scan. -/
theorem uncommitted_not_in_forwardScan (s : Store) (id : Int)
    (h : id ∈ s.uncommitted) : id ∉ forwardScan s := by
  intro hmem
  rw [forwardScan, List.mem_filter] at hmem
  have hh := hmem.2
  simp [hiddenId] at hh
  exact absurd h hh.1

/-- Lemma: the underlying delete of a different identifier preserves a
record. -/
theorem underlyingDelete_preserves_mem (s : Store) (x id : Int) (n : Nat)
    (hmem : (id, n) ∈ s.records) (hne : id ≠ x) :
    (id, n) ∈ (underlyingDelete s x).records := by
  simp only [underlyingDelete]
  exact List.mem_filter.mpr ⟨hmem, by simp [hne]⟩

/-- Lemma: the eviction loop preserves any record whose identifier is not on
its scan. -/
theorem evictLoop_preserves_mem (env : Env) (id : Int) (n : Nat) :
    ∀ (l : List Int) (s : Store), id ∉ l → (id, n) ∈ s.records →
      (id, n) ∈ ((evictLoop env s l).1).records := by
  intro l
  induction l with
  | nil => intro s _ h; exact h
  | cons x rest ih =>
    intro s hnot hmem
    have hx : id ≠ x := by
      intro heq
      exact hnot (heq ▸ List.mem_cons_self x rest)
    have hrest : id ∉ rest := fun hr => hnot (List.mem_cons_of_mem x hr)
    unfold evictLoop
    by_cases h : needsDelete s = true
    · rcases hd : deleteRecord env s x with ⟨s1, o⟩
      have hmem1 : (id, n) ∈ s1.records := by
        rcases deleteRecord_state env s x with hc | hc <;> rw [hd] at hc <;>
          simp at hc
        · rw [hc]; exact hmem
        · rw [hc]
          exact underlyingDelete_preserves_mem s x id n hmem hx
      cases o with
      | none =>
        simp only [h, if_true, hd]
        exact ih s1 hrest hmem1
      | some e =>
        simp only [h, if_true, hd]
        exact hmem1
    · simp only [h, if_false]
      exact hmem

/-- Lemma: `deleteAsNeeded` preserves any record whose identifier is still
pending in the tracker (it is invisible to the eviction scan). -/
theorem deleteAsNeeded_preserves_mem (env : Env) (s : Store) (id : Int)
    (n : Nat) (hunc : id ∈ s.uncommitted) (hmem : (id, n) ∈ s.records) :
    (id, n) ∈ ((deleteAsNeeded env s).1).records := by
  unfold deleteAsNeeded
  split_ifs with h1 h2
  · exact hmem
  · exact hmem
  · exact evictLoop_preserves_mem env id n (forwardScan s) s
      (uncommitted_not_in_forwardScan s id hunc) hmem

/-- C5: when the post-insert eviction pass fails, the error is surfaced to
the caller of `insertRecord`, but the insert is not rolled back — the newly
written record is still present in the resulting state and its identifier is
still registered as uncommitted. -/
theorem insert_not_rolled_back (env : Env) (s : Store) (data : List Nat)
    (id : Int) (s1 : Store) (e : Err)
    (hlen : ¬ (data.length : Int) > s.cappedMaxSize)
    (hw : writePhase env s data = .ok (id, s1))
    (hrec : (id, data.length) ∈ s1.records)
    (hev : (deleteAsNeeded env (addUncommittedId s1 id)).2 = some e) :
    insertRecord env s data
      = ((deleteAsNeeded env (addUncommittedId s1 id)).1, .error e)
    ∧ (id, data.length) ∈ (insertRecord env s data).1.records
    ∧ id ∈ (insertRecord env s data).1.uncommitted := by
  have hpres : (id, data.length)
      ∈ ((deleteAsNeeded env (addUncommittedId s1 id)).1).records :=
    deleteAsNeeded_preserves_mem env (addUncommittedId s1 id) id data.length
      (by simp [addUncommittedId]) (by simpa [addUncommittedId] using hrec)
  have huncommitted := deleteAsNeeded_uncommitted env (addUncommittedId s1 id)
  rcases hda : deleteAsNeeded env (addUncommittedId s1 id) with ⟨s3, o⟩
  rw [hda] at hev hpres huncommitted
  simp at hev
  subst hev
  have hins : insertRecord env s data = (s3, .error e) := by
    simp [insertRecord, hlen, hw, hda]
  refine ⟨?_, ?_, ?_⟩
  · exact hins
  · rw [hins]
    simpa using hpres
  · rw [hins]
    have h1 : id ∈ (addUncommittedId s1 id).uncommitted := by
      simp [addUncommittedId]
    simp at huncommitted
    simpa [huncommitted] using h1

/-- Witness for C5: over-capacity `storeB`, an insert of two bytes and a
rejecting delete callback — the eviction failure is surfaced while the new
record (9, 2) and its registration survive. -/
theorem insert_not_rolled_back_witness :
    insertRecord envR storeB [3, 3]
      = ((deleteAsNeeded envR (addUncommittedId storeB1 9)).1,
         .error (.aboutToDeleteRejected 0))
    ∧ (9, 2) ∈ (insertRecord envR storeB [3, 3]).1.records
    ∧ (9 : Int) ∈ (insertRecord envR storeB [3, 3]).1.uncommitted :=
  insert_not_rolled_back envR storeB [3, 3] 9 storeB1 (.aboutToDeleteRejected 0)
    (by decide) rfl (by decide) rfl

/-- Lemma: on a descending list, `find?` returns the greatest element
satisfying the predicate. -/
theorem find_desc_max (p : Int → Bool) :
    ∀ (l : List Int), l.Pairwise (fun a b => b ≤ a) →
      ∀ r, l.find? p = some r →
        p r = true ∧ r ∈ l ∧ ∀ y ∈ l, p y = true → y ≤ r := by
  intro l
  induction l with
  | nil =>
    intro _ r h
    simp at h
  | cons a t ih =>
    intro hp r hfind
    rcases List.pairwise_cons.mp hp with ⟨ha, ht⟩
    by_cases hpa : p a = true
    · rw [List.find?_cons_of_pos t hpa] at hfind
      have hra : a = r := by
        simpa using hfind
      subst hra
      refine ⟨hpa, List.mem_cons_self a t, ?_⟩
      intro y hy _
      rcases List.mem_cons.mp hy with hy | hy
      · exact le_of_eq (by rw [hy])
      · exact ha y hy
    · rw [List.find?_cons_of_neg t hpa] at hfind
      obtain ⟨h1, h2, h3⟩ := ih ht r hfind
      refine ⟨h1, List.mem_cons_of_mem a h2, ?_⟩
      intro y hy hpy
      rcases List.mem_cons.mp hy with hy | hy
      · exact absurd (hy ▸ hpy) hpa
      · exact h3 y hy hpy

/-- Lemma: the backward scan is descending. -/
theorem backScan_pairwise (s : Store) (x : Int) :
    (backScan s x).Pairwise (fun a b => b ≤ a) := by
  rw [backScan, List.pairwise_reverse]
  exact (List.sorted_insertionSort (· ≤ ·) (s.records.map Prod.fst)).filter _

/-- Lemma: membership on the backward scan is membership in the store at or
below the start position. -/
theorem mem_backScan (s : Store) (x y : Int) :
    y ∈ backScan s x ↔ y ∈ s.records.map Prod.fst ∧ y ≤ x := by
  rw [backScan, List.mem_reverse, List.mem_filter, sortedIds]
  constructor
  · rintro ⟨h1, h2⟩
    exact ⟨(List.perm_insertionSort (· ≤ ·) (s.records.map Prod.fst)).mem_iff.mp h1,
      by simpa using h2⟩
  · rintro ⟨h1, h2⟩
    exact ⟨(List.perm_insertionSort (· ≤ ·) (s.records.map Prod.fst)).mem_iff.mpr h1,
      by simpa using h2⟩

/-- C6: `oplogStartHack` returns the invalid sentinel when visibility
tracking is disabled; otherwise it returns the greatest identifier present
that is at or below the starting position and strictly below
`lowestInvisible`, and the invalid sentinel exactly when no identifier
qualifies. -/
theorem oplogStartHack_spec (s : Store) (x : Int) :
    (s.hasTracker = false → oplogStartHack s x = none)
    ∧ (∀ r, oplogStartHack s x = some r →
        r ∈ s.records.map Prod.fst ∧ r ≤ x
        ∧ ltLowest s.lowestInvisible r = true
        ∧ ∀ y ∈ s.records.map Prod.fst, y ≤ x →
            ltLowest s.lowestInvisible y = true → y ≤ r)
    ∧ (s.hasTracker = true → oplogStartHack s x = none →
        ∀ y ∈ s.records.map Prod.fst, y ≤ x →
          ltLowest s.lowestInvisible y = false) := by
  refine ⟨?_, ?_, ?_⟩
  · intro h
    simp [oplogStartHack, h]
  · intro r hr
    have htr : s.hasTracker = true := by
      by_contra hcontra
      have hfalse : s.hasTracker = false := by
        simpa using hcontra
      simp [oplogStartHack, hfalse] at hr
    rw [oplogStartHack, htr] at hr
    simp only [Bool.not_true, Bool.false_eq_true, if_false] at hr
    obtain ⟨hp, hmem, hmax⟩ :=
      find_desc_max _ (backScan s x) (backScan_pairwise s x) r hr
    have hp2 := Bool.and_eq_true_iff.mp hp
    have hrx : r ≤ x := by
      simpa using hp2.1
    refine ⟨((mem_backScan s x r).mp hmem).1, hrx, hp2.2, ?_⟩
    intro y hy hyx hylt
    exact hmax y ((mem_backScan s x y).mpr ⟨hy, hyx⟩)
      (by simp [hyx, hylt])
  · intro htr hnone y hy hyx
    rw [oplogStartHack, htr] at hnone
    simp only [Bool.not_true, Bool.false_eq_true, if_false] at hnone
    have hall := List.find?_eq_none.mp hnone y ((mem_backScan s x y).mpr ⟨hy, hyx⟩)
    by_contra hcontra
    have hlt : ltLowest s.lowestInvisible y = true := by
      simpa using hcontra
    exact hall (by simp [hyx, hlt])

/-- Witness for C6: on `storeC` with start 5, the hack lands on identifier 1
(the greatest identifier below `lowestInvisible = 3`). -/
theorem oplogStartHack_spec_witness :
    (1 : Int) ∈ storeC.records.map Prod.fst ∧ (1 : Int) ≤ 5
    ∧ ltLowest storeC.lowestInvisible 1 = true
    ∧ ∀ y ∈ storeC.records.map Prod.fst, y ≤ 5 →
        ltLowest storeC.lowestInvisible y = true → y ≤ 1 :=
  (oplogStartHack_spec storeC 5).2.1 1 rfl

/-- Lemma: one unfolding step of the truncation loop. -/
theorem truncLoop_cons (env : Env) (endId loc : Int) (incl : Bool)
    (s : Store) (rest : List Int) :
    truncLoop env endId incl s (loc :: rest)
      = if ! incl && loc == endId then
          truncLoop env endId incl s rest
        else
          match deleteRecord env s loc with
          | (s1, none) => truncLoop env endId incl s1 rest
          | (s1, some e) => (s1, some e) := rfl

/-- Lemma: with no delete callback, the truncation loop removes exactly the
scanned identifiers, minus `endId` itself when not inclusive. -/
theorem truncLoop_filter (env : Env) (hcb : env.cappedDeleteCallback = none)
    (endId : Int) (incl : Bool) :
    ∀ (l : List Int) (s : Store),
      truncLoop env endId incl s l
        = ({ s with records := (s.records.filter
              (fun r => ! (l.contains r.1 && (incl || r.1 != endId)))) }, none) := by
  intro l
  induction l with
  | nil =>
    intro s
    have hf : s.records.filter
          (fun r => ! (([] : List Int).contains r.1 && (incl || r.1 != endId)))
        = s.records :=
      List.filter_eq_self.mpr (fun a _ => rfl)
    show (s, none) = _
    rw [hf]
  | cons loc rest ih =>
    intro s
    by_cases hskip : (! incl && loc == endId) = true
    · have hincl : incl = false := by
        rcases Bool.and_eq_true_iff.mp hskip with ⟨h1, _⟩
        simpa using h1
      have hloc : loc = endId := by
        rcases Bool.and_eq_true_iff.mp hskip with ⟨_, h2⟩
        simpa using h2
      have hstep : truncLoop env endId incl s (loc :: rest)
          = truncLoop env endId incl s rest := by
        rw [truncLoop_cons, if_pos hskip]
      rw [hstep, ih s]
      have hf : s.records.filter
            (fun r => ! (rest.contains r.1 && (incl || r.1 != endId)))
          = s.records.filter
            (fun r => ! ((loc :: rest).contains r.1 && (incl || r.1 != endId))) := by
        apply List.filter_congr
        intro r _
        by_cases hr : r.1 = endId
        · simp [hincl, hloc, hr]
        · simp [hloc, hr]
      rw [hf]
    · have hd : deleteRecord env s loc = (underlyingDelete s loc, none) := by
        simp [deleteRecord, hcb]
      have hstep : truncLoop env endId incl s (loc :: rest)
          = truncLoop env endId incl (underlyingDelete s loc) rest := by
        rw [truncLoop_cons, if_neg hskip, hd]
      have hflag : (incl || loc != endId) = true := by
        by_cases hi : incl = true
        · simp [hi]
        · have hif : incl = false := by
            simpa using hi
          have hne : (loc == endId) = false := by
            by_contra hc
            have hbeq : (loc == endId) = true := by
              simpa using hc
            exact hskip (by simp [hif, hbeq])
          have hnp : loc ≠ endId := by
            intro hc
            rw [hc] at hne
            simp at hne
          simp [hif, hnp]
      rw [hstep, ih (underlyingDelete s loc)]
      have hf : ((underlyingDelete s loc).records).filter
            (fun r => ! (rest.contains r.1 && (incl || r.1 != endId)))
          = s.records.filter
            (fun r => ! ((loc :: rest).contains r.1 && (incl || r.1 != endId))) := by
        show (s.records.filter (fun r => ! decide (r.1 = loc))).filter
            (fun r => ! (rest.contains r.1 && (incl || r.1 != endId))) = _
        rw [List.filter_filter]
        apply List.filter_congr
        intro r _
        by_cases hr : r.1 = loc
        · simp [hr, hflag]
        · simp [hr]
      rw [hf]
      rfl

/-- Counterexample to C7: with `cexStore` (record 2 uncommitted and at the
`lowestInvisible` boundary), `truncateAfter(1, inclusive = false)` deletes
nothing: the record with identifier 2 — strictly greater than 1 — survives,
because the forward scan the loop walks is visibility-restricted. -/
theorem truncateAfter_cex :
    (temp_cappedTruncateAfter envW cexStore 1 false).1.records = [(1, 1), (2, 1)]
    ∧ ((2 : Int), (1 : Nat))
        ∈ (temp_cappedTruncateAfter envW cexStore 1 false).1.records
    ∧ (1 : Int) < 2 := by
  refine ⟨by decide, by decide, by decide⟩

/-- Lemma: membership on the restricted forward scan from a start
position. -/
theorem mem_forwardScanFrom (s : Store) (e y : Int) :
    y ∈ forwardScanFrom s e
      ↔ y ∈ s.records.map Prod.fst ∧ e ≤ y ∧ hiddenId s y = false := by
  rw [forwardScanFrom, List.mem_filter, List.mem_filter, sortedIds]
  constructor
  · rintro ⟨⟨h1, h2⟩, h3⟩
    exact ⟨(List.perm_insertionSort (· ≤ ·) (s.records.map Prod.fst)).mem_iff.mp h1,
      by simpa using h2, by simpa using h3⟩
  · rintro ⟨h1, h2, h3⟩
    exact ⟨⟨(List.perm_insertionSort (· ≤ ·) (s.records.map Prod.fst)).mem_iff.mpr h1,
      by simpa using h2⟩, by simpa using h3⟩

/-- C7 (amended): with no delete callback, `truncateAfter(id, inclusive)`
deletes exactly the records whose identifiers appear on the restricted
forward scan from `id` (excluding `id` itself unless inclusive); records
below `id` are always untouched; and when no visibility restriction is in
effect (empty pending set, unrestricted boundary) this is exactly the
records strictly greater than `id` (inclusive: at or above `id`). -/
theorem truncateAfter_amended (env : Env) (s : Store) (endId : Int)
    (incl : Bool) (hcb : env.cappedDeleteCallback = none) :
    (temp_cappedTruncateAfter env s endId incl).2 = none
    ∧ (temp_cappedTruncateAfter env s endId incl).1.records
        = s.records.filter (fun r =>
            ! ((forwardScanFrom s endId).contains r.1 && (incl || r.1 != endId)))
    ∧ (∀ r ∈ s.records, r.1 < endId →
        r ∈ (temp_cappedTruncateAfter env s endId incl).1.records)
    ∧ (s.uncommitted = [] → s.lowestInvisible = none →
        (temp_cappedTruncateAfter env s endId false).1.records
          = s.records.filter (fun r => ! decide (endId < r.1))
        ∧ (temp_cappedTruncateAfter env s endId true).1.records
          = s.records.filter (fun r => ! decide (endId ≤ r.1))) := by
  have hchar := truncLoop_filter env hcb endId incl (forwardScanFrom s endId) s
  refine ⟨?_, ?_, ?_, ?_⟩
  · rw [temp_cappedTruncateAfter, hchar]
  · rw [temp_cappedTruncateAfter, hchar]
  · intro r hr hlt
    rw [temp_cappedTruncateAfter, hchar]
    refine List.mem_filter.mpr ⟨hr, ?_⟩
    have hnm : r.1 ∉ forwardScanFrom s endId := by
      intro hm
      have := ((mem_forwardScanFrom s endId r.1).mp hm).2.1
      omega
    simp [List.contains, hnm]
  · intro hu hl
    have hvis : ∀ y : Int, hiddenId s y = false := by
      intro y
      simp [hiddenId, hu, hl, ltLowest]
    have hcm : ∀ r ∈ s.records,
        (forwardScanFrom s endId).contains r.1 = decide (endId ≤ r.1) := by
      intro r hr
      by_cases hcase : endId ≤ r.1
      · have hmem2 : r.1 ∈ forwardScanFrom s endId :=
          (mem_forwardScanFrom s endId r.1).mpr
            ⟨List.mem_map_of_mem Prod.fst hr, hcase, hvis r.1⟩
        simp [List.contains, hmem2, hcase]
      · have hnm : r.1 ∉ forwardScanFrom s endId := fun hm =>
          hcase ((mem_forwardScanFrom s endId r.1).mp hm).2.1
        simp [List.contains, hnm, hcase]
    constructor
    · have hchar2 := truncLoop_filter env hcb endId false (forwardScanFrom s endId) s
      rw [temp_cappedTruncateAfter, hchar2]
      show s.records.filter _ = s.records.filter _
      apply List.filter_congr
      intro r hr
      rw [hcm r hr]
      rcases lt_trichotomy endId r.1 with h | h | h
      · have h2 : endId ≤ r.1 := by omega
        have h3 : r.1 ≠ endId := by omega
        simp [h, h2, h3]
      · rw [h]
        simp
      · have h2 : ¬ endId ≤ r.1 := by omega
        have h3 : ¬ endId < r.1 := by omega
        simp [h2, h3]
    · have hchar3 := truncLoop_filter env hcb endId true (forwardScanFrom s endId) s
      rw [temp_cappedTruncateAfter, hchar3]
      show s.records.filter _ = s.records.filter _
      apply List.filter_congr
      intro r hr
      rw [hcm r hr]
      by_cases h1 : endId ≤ r.1 <;> simp [h1]

/-- Witness for C7 (amended) on the counterexample store: truncation
succeeds and removes exactly the visible scanned identifiers after 1 —
here, none. -/
theorem truncateAfter_amended_witness :
    (temp_cappedTruncateAfter envW cexStore 1 false).2 = none
    ∧ (temp_cappedTruncateAfter envW cexStore 1 false).1.records
        = cexStore.records.filter (fun r =>
            ! ((forwardScanFrom cexStore 1).contains r.1 && (false || r.1 != 1))) :=
  ⟨(truncateAfter_amended envW cexStore 1 false rfl).1,
   (truncateAfter_amended envW cexStore 1 false rfl).2.1⟩
